import Mathlib

/-!
Shallow embedding of the Speedb "Get-Smallest" read-path operator
(`db/db_impl/spdb_db_gs_impl.cc`).

User keys are byte strings, embedded as `List Nat` with the lexicographic
order (the engine's bytewise user comparator).  The empty key `[]` plays the
roles the empty `Slice`/`std::string` plays in the source: "no upper bound",
"no target", "no CSK yet".

The iterator wrappers, the level processor (`ProcessLogLevel`), the
per-level drivers and `DBImpl::GetSmallestAtOrAfter` are translated from the
source file.  The global deletion list (`spdb_db_gs_del_list.h`) and the
relative-position classifiers (`spdb_db_gs_utils.h`) are declared and used by
the source file but their implementation is not part of the sources at hand;
those definitions are modelled from the specification (§4.D, §4.G) and are
marked `Modelled from the spec:` individually.

The main loop of `ProcessLogLevel` need not terminate (see the no-progress
claim), so it is embedded with explicit fuel: `none` means the fuel ran out.
-/

namespace SpdbGs

/-- User keys: byte strings with the bytewise (lexicographic) user comparator. -/
abbrev UserKey := List Nat

/-- Comparator result `Compare(a, b) < 0` of the bytewise user comparator. -/
def ukLt (a b : UserKey) : Bool := decide (a < b)

/-- Comparator result `Compare(a, b) <= 0` of the bytewise user comparator. -/
def ukLe (a b : UserKey) : Bool := decide (a ≤ b)

/-- Value types of internal keys (`kTypeValue`, `kTypeMerge`, point deletion,
anything else). -/
inductive VType
  | value
  | merge
  | del
  | other
deriving DecidableEq, Repr

/-- Parsed internal key `(user_key, sequence, type)`. -/
structure IKey where
  ukey : UserKey
  seqno : Nat
  vtype : VType
deriving DecidableEq, Repr

/-- Value categories (`spdb_gs::ValueCategory`), including the `NONE` default. -/
inductive ValueCategory
  | VALUE
  | MERGE_VALUE
  | DEL_KEY
  | OTHER
  | NONE
deriving DecidableEq, Repr

/-- Modelled from the spec: `GetValueCategoryOfKey` (declared in
`spdb_db_gs_utils.h`, implementation not among the sources).  Spec §3:
`VALUE` for Value, `MERGE_VALUE` for Merge, `DEL_KEY` for a point deletion,
`OTHER` for anything else. -/
def GetValueCategoryOfKey : VType → ValueCategory
  | .value => .VALUE
  | .merge => .MERGE_VALUE
  | .del => .DEL_KEY
  | .other => .OTHER

/-- A range tombstone `[start_key_, end_key_)` with its sequence number. -/
structure RangeTombstone where
  startKey : UserKey
  endKey : UserKey
  seqno : Nat
deriving DecidableEq, Repr

/-- Relative-position classification (`spdb_gs::RelativePos`), with the
`NONE` default used before a classifier has run. -/
inductive RelativePos
  | BEFORE
  | AFTER
  | OVERLAP
  | NONE
deriving DecidableEq, Repr

/-- A deletion-list element: a single point key or a half-open range. -/
inductive DelElement
  | point (k : UserKey)
  | range (s e : UserKey)
deriving DecidableEq, Repr

namespace DelElement

/-- The element's `user_start_key` (for a point, the point itself). -/
def userStartKey : DelElement → UserKey
  | .point k => k
  | .range s _ => s

/-- Modelled from the spec: the element's `user_end_key`; a point `k` is the
singleton `[k, k]`, so its end is `k` itself (the source only reads
`user_end_key` of elements known to be ranges). -/
def userEndKey : DelElement → UserKey
  | .point k => k
  | .range _ e => e

/-- `DelElement::IsRange()`. -/
def IsRange : DelElement → Bool
  | .point _ => false
  | .range _ _ => true

/-- Modelled from the spec: whether two elements overlap or touch, i.e. must
be coalesced into one (spec §4.D: "no two elements overlap; touching ranges
are merged"; a point is merged into a range that covers it; half-open range
ends make a point touching a range's end unrepresentable as one element, so
such a pair is kept as two adjacent elements). -/
def touches : DelElement → DelElement → Bool
  | .range s1 e1, .range s2 e2 => ukLe s1 e2 && ukLe s2 e1
  | .point p, .range s e => ukLe s p && ukLt p e
  | .range s e, .point p => ukLe s p && ukLt p e
  | .point p, .point q => decide (p = q)

/-- Modelled from the spec: the coalesced union of two touching elements. -/
def mergeWith : DelElement → DelElement → DelElement
  | .range s1 e1, .range s2 e2 =>
      .range (if ukLe s1 s2 then s1 else s2) (if ukLe e1 e2 then e2 else e1)
  | .point _, .range s e => .range s e
  | .range s e, .point _ => .range s e
  | .point p, .point _ => .point p

end DelElement

/-- Modelled from the spec: `CompareDelElemToUserKey` (§4.G).  `BEFORE` if
`d.end <= k` (range) or `d.key < k` (point); `AFTER` if `d.start > k`;
otherwise `OVERLAP`. -/
def CompareDelElemToUserKey (d : DelElement) (k : UserKey) : RelativePos :=
  match d with
  | .point p => if ukLt p k then .BEFORE else if ukLt k p then .AFTER else .OVERLAP
  | .range s e => if ukLe e k then .BEFORE else if ukLt k s then .AFTER else .OVERLAP

/-- Modelled from the spec: `CompareRangeTsToUserKey` (§4.G).  `BEFORE` if
`r.end <= k`; `AFTER` if `r.start > k`; otherwise `OVERLAP`. -/
def CompareRangeTsToUserKey (r : RangeTombstone) (k : UserKey) : RelativePos :=
  if ukLe r.endKey k then .BEFORE
  else if ukLt k r.startKey then .AFTER
  else .OVERLAP

/-- Modelled from the spec: the fine-grained endpoint relation used inside the
`OVERLAP` case of `CompareDelElemToRangeTs`: how one key compares to another
(`BEFORE` strictly smaller, `OVERLAP` equal, `AFTER` strictly greater). -/
def compareKeysRel (a b : UserKey) : RelativePos :=
  if ukLt a b then .BEFORE else if ukLt b a then .AFTER else .OVERLAP

/-- Modelled from the spec: `CompareDelElemToRangeTs` (§4.G).  Returns the
overall relation and, for `OVERLAP`, the relations of the element's start and
end against the tombstone's start and end (`NONE` otherwise, as in the
source's default-initialised out-parameters).  A point element is the
singleton set of its key. -/
def CompareDelElemToRangeTs (d : DelElement) (r : RangeTombstone) :
    RelativePos × RelativePos × RelativePos :=
  match d with
  | .point p =>
      if ukLt p r.startKey then (.BEFORE, .NONE, .NONE)
      else if ukLe r.endKey p then (.AFTER, .NONE, .NONE)
      else (.OVERLAP, compareKeysRel p r.startKey, compareKeysRel p r.endKey)
  | .range s e =>
      if ukLe e r.startKey then (.BEFORE, .NONE, .NONE)
      else if ukLe r.endKey s then (.AFTER, .NONE, .NONE)
      else (.OVERLAP, compareKeysRel s r.startKey, compareKeysRel e r.endKey)

/-- Whether a del-list element lies entirely before the user key `k`
(the `BEFORE` answer of `CompareDelElemToUserKey`, used for cursor seeks). -/
def delElemBefore (d : DelElement) (k : UserKey) : Bool :=
  match d with
  | .point p => ukLt p k
  | .range _ e => ukLe e k

namespace GlobalDelList

/-- Modelled from the spec: `Iterator::Seek(user_key)` over the ordered
deletion list: position on the first element not entirely before the key.
`SeekForward` is specified as equivalent to `Seek` (§4.D), so both use this. -/
def seekIdx (l : List DelElement) (k : UserKey) : Nat :=
  l.findIdx (fun d => !(delElemBefore d k))

/-- Modelled from the spec: absorb into `e` every following element that
overlaps or touches it; returns the coalesced element, the remaining suffix,
and whether at least one element was absorbed. -/
def absorbFwd : DelElement → List DelElement → DelElement × List DelElement × Bool
  | e, [] => (e, [], false)
  | e, d :: rest =>
    if e.touches d then
      let r := absorbFwd (e.mergeWith d) rest
      (r.1, r.2.1, true)
    else (e, d :: rest, false)

/-- Modelled from the spec: absorb into `e` every preceding element (given in
reverse order) that overlaps or touches it. -/
def absorbBackRev : List DelElement → DelElement → List DelElement × DelElement
  | [], e => ([], e)
  | d :: rest, e => if d.touches e then absorbBackRev rest (d.mergeWith e) else (d :: rest, e)

/-- Modelled from the spec: insert `e` immediately before position `pos`,
coalescing with overlapping/touching neighbours on both sides.  Returns the
new list, the index of the (possibly coalesced) inserted element, and whether
the element previously at `pos` was absorbed into it. -/
def insertCore (l : List DelElement) (pos : Nat) (e : DelElement) :
    List DelElement × Nat × Bool :=
  let p := min pos l.length
  let pre := l.take p
  let post := l.drop p
  let back := absorbBackRev pre.reverse e
  let fwd := absorbFwd back.2 post
  (back.1.reverse ++ fwd.1 :: fwd.2.1, back.1.length, fwd.2.2)

/-- Modelled from the spec: `InsertBefore(iter, elem)`: insert before the
cursor, coalescing; the cursor stays on the element it was on (which may have
been coalesced into the inserted one). -/
def insertBefore (l : List DelElement) (pos : Nat) (e : DelElement) :
    List DelElement × Nat :=
  let r := insertCore l pos e
  (r.1, if r.2.2 then r.2.1 else r.2.1 + 1)

/-- Modelled from the spec: `InsertBeforeAndSetIterOnInserted`: as
`insertBefore` but the cursor is left on the inserted element. -/
def insertBeforeSetOnInserted (l : List DelElement) (pos : Nat) (e : DelElement) :
    List DelElement × Nat :=
  let r := insertCore l pos e
  (r.1, r.2.1)

/-- Modelled from the spec: `ReplaceWith(iter, elem)`: replace the current
element by `elem`, coalescing forward; the cursor stays at the same index. -/
def replaceWith (l : List DelElement) (pos : Nat) (e : DelElement) : List DelElement :=
  let pre := l.take pos
  let post := l.drop (pos + 1)
  let fwd := absorbFwd e post
  pre ++ fwd.1 :: fwd.2.1

/-- Modelled from the spec: `Trim(upper_bound)` (§4.D): drop every element
entirely at or above the bound, clip a straddling range to `[start, ub)`. -/
def Trim (l : List DelElement) (ub : UserKey) : List DelElement :=
  l.filterMap (fun d =>
    match d with
    | .point p => if ukLt p ub then some (.point p) else none
    | .range s e =>
        if ukLe ub s then none
        else if ukLt ub e then some (.range s ub)
        else some (.range s e))

end GlobalDelList

/-- Status values observable through this code path. -/
inductive GsStatus
  | ok
  | notFound
  | aborted
  | ioError
  | corruption
deriving DecidableEq, Repr

/-- The underlying per-level point-data cursor (`InternalIterator`): a list of
internal keys in internal-key order with a position, plus the `status()` it
would report.  A freshly created iterator is unpositioned (invalid). -/
structure WrappedVIter where
  entries : List IKey
  pos : Nat
  stat : GsStatus
deriving DecidableEq, Repr

namespace WrappedVIter

def valid (w : WrappedVIter) : Bool := w.pos < w.entries.length

def currKey (w : WrappedVIter) : IKey := w.entries.getD w.pos ⟨[], 0, .other⟩

/-- Seek with `LookupKey(target, kMaxSequenceNumber)`: position on the first
entry whose user key is at or after the target. -/
def seek (w : WrappedVIter) (t : UserKey) : WrappedVIter :=
  { w with pos := w.entries.findIdx (fun e => ukLe t e.ukey) }

def seekToFirst (w : WrappedVIter) : WrappedVIter := { w with pos := 0 }

def next (w : WrappedVIter) : WrappedVIter := { w with pos := w.pos + 1 }

end WrappedVIter

/-- `spdb_gs::InternalIteratorWrapper`: the value-iterator adapter with its
exclusive upper bound (empty key = no bound) and cached validity flag. -/
structure InternalIteratorWrapper where
  inner : WrappedVIter
  ub : UserKey
  valid : Bool
deriving DecidableEq, Repr

namespace InternalIteratorWrapper

/-- `InternalIteratorWrapper::UpdateValidity`, computed value of `valid_`.
Modelled from the spec: the source compares the wrapped iterator's
internal-key slice against the user-key upper bound with the user comparator;
the slice layout of internal keys is outside the sources at hand, and per
spec §4.B validity requires the current key's user-key to be strictly below
the bound. -/
def computeValid (inner : WrappedVIter) (ub : UserKey) : Bool :=
  inner.valid && (ub.isEmpty || ukLt inner.currKey.ukey ub)

/-- Construction: wrap an unpositioned iterator; `valid_` starts out false. -/
def mk0 (entries : List IKey) (stat : GsStatus) (ub : UserKey) : InternalIteratorWrapper :=
  ⟨⟨entries, entries.length, stat⟩, ub, false⟩

def SetUpperBound (w : InternalIteratorWrapper) (u : UserKey) : InternalIteratorWrapper :=
  let inner := w.inner
  ⟨inner, u, computeValid inner u⟩

def SeekToFirst (w : InternalIteratorWrapper) : InternalIteratorWrapper :=
  let inner := w.inner.seekToFirst
  ⟨inner, w.ub, computeValid inner w.ub⟩

def Seek (w : InternalIteratorWrapper) (t : UserKey) : InternalIteratorWrapper :=
  let inner := w.inner.seek t
  ⟨inner, w.ub, computeValid inner w.ub⟩

def Next (w : InternalIteratorWrapper) : InternalIteratorWrapper :=
  let inner := w.inner.next
  ⟨inner, w.ub, computeValid inner w.ub⟩

/-- `key()` of the wrapper, parsed (`ParseInternalKey` of the slice). -/
def currKey (w : InternalIteratorWrapper) : IKey := w.inner.currKey

def status (w : InternalIteratorWrapper) : GsStatus := w.inner.stat

end InternalIteratorWrapper

/-- The underlying truncated/fragmented range-tombstone cursor: the level's
fragmented tombstones in order of start key, with a position.  A freshly
created iterator is unpositioned (invalid). -/
structure WrappedTIter where
  tss : List RangeTombstone
  pos : Nat
  stat : GsStatus
deriving DecidableEq, Repr

namespace WrappedTIter

def valid (w : WrappedTIter) : Bool := w.pos < w.tss.length

def currTs (w : WrappedTIter) : RangeTombstone := w.tss.getD w.pos ⟨[], [], 0⟩

/-- Modelled from the spec: `Seek(target)` of the wrapped tombstone cursor
positions on the first tombstone whose range ends after the target. -/
def seek (w : WrappedTIter) (t : UserKey) : WrappedTIter :=
  { w with pos := w.tss.findIdx (fun r => ukLt t r.endKey) }

def seekToFirst (w : WrappedTIter) : WrappedTIter := { w with pos := 0 }

def next (w : WrappedTIter) : WrappedTIter := { w with pos := w.pos + 1 }

end WrappedTIter

/-- `spdb_gs::TruncatedRangeDelIteratorWrapper`: wraps a possibly-null
tombstone cursor, with an exclusive upper bound (empty key = none) and a
cached validity flag. -/
structure TruncatedRangeDelIteratorWrapper where
  inner : Option WrappedTIter
  ub : UserKey
  valid : Bool
deriving DecidableEq, Repr

namespace TruncatedRangeDelIteratorWrapper

/-- `TruncatedRangeDelIteratorWrapper::UpdateValidity`: invalid when the
wrapped cursor is null or exhausted, or when the current tombstone's start
key is at or above the upper bound. -/
def computeValid (inner : Option WrappedTIter) (ub : UserKey) : Bool :=
  match inner with
  | none => false
  | some it => it.valid && (ub.isEmpty || ukLt it.currTs.startKey ub)

/-- Construction over a (possibly null) wrapped cursor; `valid_` starts false. -/
def mk0 (inner : Option WrappedTIter) (ub : UserKey) : TruncatedRangeDelIteratorWrapper :=
  ⟨inner, ub, false⟩

def SetUpperBound (w : TruncatedRangeDelIteratorWrapper) (u : UserKey) :
    TruncatedRangeDelIteratorWrapper :=
  ⟨w.inner, u, computeValid w.inner u⟩

/-- `SeekToFirst`: a null wrapped cursor is left untouched (guarded in the
source), so the validity flag keeps its previous value. -/
def SeekToFirst (w : TruncatedRangeDelIteratorWrapper) : TruncatedRangeDelIteratorWrapper :=
  match w.inner with
  | none => w
  | some it =>
      let it' := it.seekToFirst
      ⟨some it', w.ub, computeValid (some it') w.ub⟩

def Seek (w : TruncatedRangeDelIteratorWrapper) (t : UserKey) :
    TruncatedRangeDelIteratorWrapper :=
  match w.inner with
  | none => w
  | some it =>
      let it' := it.seek t
      ⟨some it', w.ub, computeValid (some it') w.ub⟩

def Next (w : TruncatedRangeDelIteratorWrapper) : TruncatedRangeDelIteratorWrapper :=
  match w.inner with
  | none => w
  | some it =>
      let it' := it.next
      ⟨some it', w.ub, computeValid (some it') w.ub⟩

/-- `Tombstone()`: the current tombstone, clipped at the upper bound when its
end extends past it.  (On a null wrapped cursor the source asserts and
returns an empty tombstone.) -/
def Tombstone (w : TruncatedRangeDelIteratorWrapper) : RangeTombstone :=
  match w.inner with
  | none => ⟨[], [], 0⟩
  | some it =>
      let cur := it.currTs
      if w.ub.isEmpty then cur
      else if ukLe cur.endKey w.ub then cur
      else ⟨cur.startKey, w.ub, cur.seqno⟩

end TruncatedRangeDelIteratorWrapper

/-- `spdb_gs::GlobalContext`: the per-query state threaded through all
levels (query target, candidate smallest key, global deletion list and its
single cursor). -/
structure GlobalContext where
  target : UserKey
  csk : UserKey
  delList : List DelElement
  delPos : Nat
deriving DecidableEq, Repr

namespace GlobalContext

def delIterValid (gc : GlobalContext) : Bool := gc.delPos < gc.delList.length

def delIterKey (gc : GlobalContext) : DelElement :=
  gc.delList.getD gc.delPos (.point [])

def delSeekToFirst (gc : GlobalContext) : GlobalContext := { gc with delPos := 0 }

def delSeek (gc : GlobalContext) (k : UserKey) : GlobalContext :=
  { gc with delPos := GlobalDelList.seekIdx gc.delList k }

/-- `SeekForward` is specified as equivalent to `Seek` (§4.D). -/
def delSeekForward (gc : GlobalContext) (k : UserKey) : GlobalContext :=
  { gc with delPos := GlobalDelList.seekIdx gc.delList k }

def delInsertBefore (gc : GlobalContext) (e : DelElement) : GlobalContext :=
  let r := GlobalDelList.insertBefore gc.delList gc.delPos e
  { gc with delList := r.1, delPos := r.2 }

def delInsertBeforeSetOnInserted (gc : GlobalContext) (e : DelElement) : GlobalContext :=
  let r := GlobalDelList.insertBeforeSetOnInserted gc.delList gc.delPos e
  { gc with delList := r.1, delPos := r.2 }

def delReplaceWith (gc : GlobalContext) (e : DelElement) : GlobalContext :=
  { gc with delList := GlobalDelList.replaceWith gc.delList gc.delPos e }

end GlobalContext

/-- `spdb_gs::LevelContext`: the per-level iterators and scratch state. -/
structure LevelContext where
  valuesIter : InternalIteratorWrapper
  rangeDelIter : TruncatedRangeDelIteratorWrapper
  valuesParsedIKey : IKey
  valueCategory : ValueCategory
  newCskFoundInLevel : Bool
deriving DecidableEq, Repr

open GlobalContext in
/-- `spdb_gs::UpdateCSK`: record the values iterator's current user key as the
new CSK, trim the deletion list to it, tighten the range-tombstone iterator's
upper bound, and flag the level as done.  (The values iterator's bound is
deliberately not updated.) -/
def UpdateCSK (gc : GlobalContext) (lc : LevelContext) : GlobalContext × LevelContext :=
  let newCsk := lc.valuesParsedIKey.ukey
  ({ gc with csk := newCsk, delList := GlobalDelList.Trim gc.delList newCsk },
   { lc with rangeDelIter := lc.rangeDelIter.SetUpperBound newCsk,
             newCskFoundInLevel := true })

open GlobalContext in
/-- `spdb_gs::ProcessCurrRangeTsVsDelList`: merge the current range tombstone
into the global deletion list relative to the del-list cursor.  The
impossible default case of the source does `assert(0); break`, i.e. changes
nothing. -/
def ProcessCurrRangeTsVsDelList (gc : GlobalContext) (lc : LevelContext)
    (rangeTs : RangeTombstone) : GlobalContext × LevelContext :=
  if gc.delIterValid then
    let delElem := gc.delIterKey
    let rels := CompareDelElemToRangeTs delElem rangeTs
    match rels.1 with
    | .BEFORE => (gc.delSeekForward rangeTs.startKey, lc)
    | .AFTER =>
        (gc.delInsertBefore (.range rangeTs.startKey rangeTs.endKey),
         { lc with rangeDelIter := lc.rangeDelIter.Next })
    | .OVERLAP =>
        let startsAtOrBefore := rels.2.1 = .BEFORE || rels.2.1 = .OVERLAP
        let endsBefore := rels.2.2 = .BEFORE
        if startsAtOrBefore then
          if endsBefore then
            let gc' := gc.delReplaceWith (.range delElem.userStartKey rangeTs.endKey)
            (gc'.delSeekForward rangeTs.endKey, lc)
          else
            (gc, lc)
        else
          if endsBefore then
            let gc' := gc.delReplaceWith (.range rangeTs.startKey rangeTs.endKey)
            (gc'.delSeekForward rangeTs.endKey, lc)
          else
            (gc.delReplaceWith (.range rangeTs.startKey delElem.userEndKey),
             { lc with rangeDelIter := lc.rangeDelIter.Seek delElem.userEndKey })
    | .NONE => (gc, lc)
  else
    (gc.delInsertBefore (.range rangeTs.startKey rangeTs.endKey),
     { lc with rangeDelIter := lc.rangeDelIter.Next })

open GlobalContext in
/-- `spdb_gs::ProcessCurrValuesIterVsDelList`: handle the values iterator's
current (parsed) key against the del-list cursor; returns the updated
contexts and the value of `lc.new_csk_found_in_level` the source returns
(`false` from the impossible default case). -/
def ProcessCurrValuesIterVsDelList (gc : GlobalContext) (lc : LevelContext) :
    GlobalContext × LevelContext × Bool :=
  let rel :=
    if gc.delIterValid then
      CompareDelElemToUserKey gc.delIterKey lc.valuesParsedIKey.ukey
    else
      .AFTER
  match rel with
  | .BEFORE =>
      let gc' := gc.delSeekForward lc.valuesParsedIKey.ukey
      (gc', lc, lc.newCskFoundInLevel)
  | .AFTER =>
      if lc.valueCategory = .VALUE || lc.valueCategory = .MERGE_VALUE then
        let r := UpdateCSK gc lc
        (r.1, r.2, r.2.newCskFoundInLevel)
      else if lc.valueCategory = .DEL_KEY then
        let gc' := gc.delInsertBeforeSetOnInserted (.point lc.valuesParsedIKey.ukey)
        (gc', { lc with valuesIter := lc.valuesIter.Next }, lc.newCskFoundInLevel)
      else
        (gc, lc, lc.newCskFoundInLevel)
  | .OVERLAP =>
      if gc.delIterKey.IsRange then
        (gc, { lc with valuesIter := lc.valuesIter.Seek gc.delIterKey.userEndKey },
         lc.newCskFoundInLevel)
      else
        (gc, { lc with valuesIter := lc.valuesIter.Next }, lc.newCskFoundInLevel)
  | .NONE => (gc, lc, false)

/-- Result of one main-loop iteration of `ProcessLogLevel`: continue with
updated contexts, or return a status immediately (the `Aborted` default
branch). -/
inductive StepResult
  | go (gc : GlobalContext) (lc : LevelContext)
  | halt (st : GsStatus) (gc : GlobalContext) (lc : LevelContext)
deriving DecidableEq, Repr

/-- The loop-continuation condition of `ProcessLogLevel`'s main loop. -/
def loopGuard (lc : LevelContext) : Bool :=
  !lc.newCskFoundInLevel && (lc.valuesIter.valid || lc.rangeDelIter.valid)

/-- One iteration of `ProcessLogLevel`'s main loop (source lines 742-815). -/
def loopStep (gc : GlobalContext) (lc : LevelContext) : StepResult :=
  if lc.valuesIter.valid = false then
    let r := ProcessCurrRangeTsVsDelList gc lc lc.rangeDelIter.Tombstone
    .go r.1 r.2
  else
    let pik := lc.valuesIter.currKey
    let cat := GetValueCategoryOfKey pik.vtype
    let lc := { lc with valuesParsedIKey := pik, valueCategory := cat }
    if cat = .OTHER then
      .go gc { lc with valuesIter := lc.valuesIter.Next }
    else if lc.rangeDelIter.valid = false then
      let r := ProcessCurrValuesIterVsDelList gc lc
      .go r.1 r.2.1
    else
      let rangeTs := lc.rangeDelIter.Tombstone
      match CompareRangeTsToUserKey rangeTs pik.ukey with
      | .BEFORE =>
          let r := ProcessCurrRangeTsVsDelList gc lc rangeTs
          .go r.1 r.2
      | .AFTER =>
          let r := ProcessCurrValuesIterVsDelList gc lc
          .go r.1 r.2.1
      | .OVERLAP =>
          if cat = .DEL_KEY then
            .go gc { lc with valuesIter := lc.valuesIter.Next }
          else if rangeTs.seqno < pik.seqno then
            let r := ProcessCurrValuesIterVsDelList gc lc
            if r.2.2 then
              let r2 := ProcessCurrRangeTsVsDelList r.1 r.2.1 rangeTs
              .go r2.1 r2.2
            else
              .go r.1 r.2.1
          else
            .go gc { lc with valuesIter := lc.valuesIter.Next }
      | .NONE => .halt .aborted gc lc

/-- Fuel-indexed main loop of `ProcessLogLevel`; `none` means the fuel ran
out before the loop terminated. -/
def runLoop : Nat → GlobalContext → LevelContext →
    Option (GsStatus × GlobalContext × LevelContext)
  | 0, gc, lc => if loopGuard lc then none else some (.ok, gc, lc)
  | fuel + 1, gc, lc =>
    if loopGuard lc then
      match loopStep gc lc with
      | .go gc' lc' => runLoop fuel gc' lc'
      | .halt st gc' lc' => some (st, gc', lc')
    else some (.ok, gc, lc)

/-- `spdb_gs::ProcessLogLevel`: initial positioning of the three cursors,
then the main loop. -/
def ProcessLogLevel (fuel : Nat) (gc : GlobalContext) (lc : LevelContext) :
    Option (GsStatus × GlobalContext × LevelContext) :=
  if gc.target.isEmpty then
    runLoop fuel gc.delSeekToFirst
      { lc with valuesIter := lc.valuesIter.SeekToFirst,
                rangeDelIter := lc.rangeDelIter.SeekToFirst }
  else
    runLoop fuel (gc.delSeek gc.target)
      { lc with valuesIter := lc.valuesIter.Seek gc.target,
                rangeDelIter := lc.rangeDelIter.Seek gc.target }

/-- Data of one logical level of the snapshot: its point entries (internal-key
order), its fragmented range tombstones (start-key order), and the statuses
its two wrapped iterators report. -/
structure LevelData where
  entries : List IKey
  tss : List RangeTombstone
  vstat : GsStatus
  tstat : GsStatus
deriving DecidableEq, Repr

/-- Snapshot of the store (superversion): mutable memtable, immutable
memtables (newest first), level-0 files (newest first), levels 1..N in
ascending order. -/
structure StoreSnapshot where
  mutableMem : LevelData
  immutables : List LevelData
  level0 : List LevelData
  lowerLevels : List LevelData
deriving DecidableEq, Repr

/-- A fresh level context whose range wrapper wraps the level's tombstone
cursor; the wrapped cursor is null when the level has no range tombstones
(the source deletes an absent/empty fragmented iterator and passes
`nullptr`). -/
def mkLevelContext (ld : LevelData) (csk : UserKey) : LevelContext :=
  { valuesIter := InternalIteratorWrapper.mk0 ld.entries ld.vstat csk,
    rangeDelIter := TruncatedRangeDelIteratorWrapper.mk0
      (if ld.tss.isEmpty then none else some ⟨ld.tss, ld.tss.length, ld.tstat⟩) csk,
    valuesParsedIKey := ⟨[], 0, .other⟩,
    valueCategory := .NONE,
    newCskFoundInLevel := false }

/-- A fresh level context for levels above 0: the source constructs the
range wrapper around `nullptr` (source line 935), whatever tombstones the
level holds. -/
def mkLevelContextGt0 (ld : LevelData) (csk : UserKey) : LevelContext :=
  { valuesIter := InternalIteratorWrapper.mk0 ld.entries ld.vstat csk,
    rangeDelIter := TruncatedRangeDelIteratorWrapper.mk0 none csk,
    valuesParsedIKey := ⟨[], 0, .other⟩,
    valueCategory := .NONE,
    newCskFoundInLevel := false }

/-- `spdb_gs::ProcessMutableMemtable` (the level context is destroyed on
return, only the global context and status survive). -/
def ProcessMutableMemtable (fuel : Nat) (gc : GlobalContext) (ld : LevelData) :
    Option (GsStatus × GlobalContext) :=
  (ProcessLogLevel fuel gc (mkLevelContext ld gc.csk)).map (fun r => (r.1, r.2.1))

/-- `spdb_gs::ProcessImmutableMemtables` / `ProcessLevel0Files`: process each
level in order, stopping at the first non-OK status. -/
def ProcessLevelsSeq (fuel : Nat) : GlobalContext → List LevelData →
    Option (GsStatus × GlobalContext)
  | gc, [] => some (.ok, gc)
  | gc, ld :: rest =>
    match ProcessLogLevel fuel gc (mkLevelContext ld gc.csk) with
    | none => none
    | some (st, gc', _) =>
      if st = .ok then ProcessLevelsSeq fuel gc' rest else some (st, gc')

/-- `spdb_gs::ProcessLevelsGt0`: skip empty levels; wrap the level's range
cursor as null; stop at the first non-OK status. -/
def ProcessLevelsGt0 (fuel : Nat) : GlobalContext → List LevelData →
    Option (GsStatus × GlobalContext)
  | gc, [] => some (.ok, gc)
  | gc, ld :: rest =>
    if ld.entries.isEmpty && ld.tss.isEmpty then ProcessLevelsGt0 fuel gc rest
    else
      match ProcessLogLevel fuel gc (mkLevelContextGt0 ld gc.csk) with
      | none => none
      | some (st, gc', _) =>
        if st = .ok then ProcessLevelsGt0 fuel gc' rest else some (st, gc')

/-- The level-processing pipeline of `DBImpl::GetSmallestAtOrAfter`: thread
the global context through the mutable memtable, the immutable memtables,
the level-0 files and the levels above 0, short-circuiting on a non-OK
status. -/
def RunLevels (fuel : Nat) (s : StoreSnapshot) (target : UserKey) :
    Option (GsStatus × GlobalContext) :=
  match ProcessMutableMemtable fuel ⟨target, [], [], 0⟩ s.mutableMem with
  | none => none
  | some (st1, gc1) =>
    match (if st1 = .ok then ProcessLevelsSeq fuel gc1 s.immutables
           else some (st1, gc1)) with
    | none => none
    | some (st2, gc2) =>
      match (if st2 = .ok then ProcessLevelsSeq fuel gc2 s.level0
             else some (st2, gc2)) with
      | none => none
      | some (st3, gc3) =>
        if st3 = .ok then ProcessLevelsGt0 fuel gc3 s.lowerLevels
        else some (st3, gc3)

/-- `DBImpl::GetSmallestAtOrAfter`: run the level pipeline, then finalize:
an empty CSK means `NotFound` with an empty output key, otherwise the output
key is the CSK and the accumulated status is returned. -/
def GetSmallestAtOrAfter (fuel : Nat) (s : StoreSnapshot) (target : UserKey) :
    Option (GsStatus × UserKey) :=
  match RunLevels fuel s target with
  | none => none
  | some (st4, gc4) =>
    if gc4.csk.isEmpty then some (.notFound, [])
    else some (st4, gc4.csk)

/-- All point entries of the snapshot, over all levels. -/
def snapshotEntries (s : StoreSnapshot) : List IKey :=
  s.mutableMem.entries ++ (s.immutables.map LevelData.entries).flatten
    ++ (s.level0.map LevelData.entries).flatten
    ++ (s.lowerLevels.map LevelData.entries).flatten

/-- All range tombstones of the snapshot, over all levels. -/
def snapshotTss (s : StoreSnapshot) : List RangeTombstone :=
  s.mutableMem.tss ++ (s.immutables.map LevelData.tss).flatten
    ++ (s.level0.map LevelData.tss).flatten
    ++ (s.lowerLevels.map LevelData.tss).flatten

/-- Whether a range tombstone's half-open range covers the user key. -/
def tsCovers (r : RangeTombstone) (k : UserKey) : Bool :=
  ukLe r.startKey k && ukLt k r.endKey

/-- Specification-side reference (the claim's naive full scan): a user key is
live when its newest entry is a Value or Merge record and no range tombstone
newer than that record covers the key. -/
def liveKey (s : StoreSnapshot) (k : UserKey) : Bool :=
  (snapshotEntries s).any (fun e =>
    decide (e.ukey = k) && (decide (e.vtype = .value) || decide (e.vtype = .merge))
    && (snapshotEntries s).all (fun e2 => decide (e2.ukey ≠ k) || decide (e2.seqno ≤ e.seqno))
    && (snapshotTss s).all (fun r => !(tsCovers r k) || decide (r.seqno ≤ e.seqno)))

/-- Specification-side reference (the claim's naive full scan): the smallest
live user key at or after the target, if any. -/
def naiveSmallestAtOrAfter (s : StoreSnapshot) (target : UserKey) : Option UserKey :=
  let cands := ((snapshotEntries s).map IKey.ukey).filter
    (fun k => ukLe target k && liveKey s k)
  match cands with
  | [] => none
  | c :: cs => some (cs.foldl (fun a b => if ukLe a b then a else b) c)

/-- Operations of the value-iterator adapter's supported navigation surface. -/
inductive VIterOp
  | seekToFirst
  | seek (k : UserKey)
  | next
  | setUpperBound (k : UserKey)
deriving DecidableEq, Repr

/-- Apply one adapter operation to an `InternalIteratorWrapper`. -/
def applyVIterOp (w : InternalIteratorWrapper) : VIterOp → InternalIteratorWrapper
  | .seekToFirst => w.SeekToFirst
  | .seek k => w.Seek k
  | .next => w.Next
  | .setUpperBound k => w.SetUpperBound k

/-- Apply a sequence of adapter operations, oldest first. -/
def applyVIterOps (w : InternalIteratorWrapper) (ops : List VIterOp) :
    InternalIteratorWrapper :=
  ops.foldl applyVIterOp w

/-- Operations of the range-tombstone adapter's navigation surface. -/
inductive TIterOp
  | seekToFirst
  | seek (k : UserKey)
  | next
  | setUpperBound (k : UserKey)
deriving DecidableEq, Repr

/-- Apply one adapter operation to a `TruncatedRangeDelIteratorWrapper`. -/
def applyTIterOp (w : TruncatedRangeDelIteratorWrapper) : TIterOp → TruncatedRangeDelIteratorWrapper
  | .seekToFirst => w.SeekToFirst
  | .seek k => w.Seek k
  | .next => w.Next
  | .setUpperBound k => w.SetUpperBound k

/-- Apply a sequence of adapter operations, oldest first. -/
def applyTIterOps (w : TruncatedRangeDelIteratorWrapper) (ops : List TIterOp) :
    TruncatedRangeDelIteratorWrapper :=
  ops.foldl applyTIterOp w

/-- Whether a del-list element lies fully within `[target, csk)` (the claimed
del-list scope invariant). -/
def delElemWithin (d : DelElement) (target csk : UserKey) : Bool :=
  match d with
  | .point p => ukLe target p && ukLt p csk
  | .range s e => ukLe target s && ukLe e csk

/-- Whether every part of a del-list element is strictly below `ub` (a point
below `ub`; a half-open range contained in `(-inf, ub)`). -/
def delElemBelow (d : DelElement) (ub : UserKey) : Bool :=
  match d with
  | .point p => ukLt p ub
  | .range s e => ukLt s ub && ukLe e ub

/-- The same snapshot with the range tombstones of every level above 0
removed. -/
def eraseLowerLevelTss (s : StoreSnapshot) : StoreSnapshot :=
  { s with lowerLevels := s.lowerLevels.map (fun ld => { ld with tss := [] }) }

/-- Byte-string keys used in the concrete scenarios (`kb < kc < kf < km`). -/
def ka : UserKey := [1]
def kb : UserKey := [2]
def kc : UserKey := [3]
def kf : UserKey := [6]
def km : UserKey := [13]

/-- Snapshot refuting full correctness: level 1 holds only the range
tombstone `[ka, kc) @ 10`, level 2 holds only `Put(kb) @ 5`.  The tombstone
covers `kb` and is newer, so no key is live; the query nevertheless returns
`kb` because levels above 0 are processed with a null range-tombstone
cursor. -/
def storeC1 : StoreSnapshot :=
  ⟨⟨[], [], .ok, .ok⟩, [], [],
   [⟨[], [⟨ka, kc, 10⟩], .ok, .ok⟩, ⟨[⟨kb, 5, .value⟩], [], .ok, .ok⟩]⟩

/-- Mutable-memtable level data for the del-list scope counterexample:
`Put(kc) @ 30` and the range tombstone `[kb, kf) @ 10`. -/
def levelC2 : LevelData := ⟨[⟨kc, 30, .value⟩], [⟨kb, kf, 10⟩], .ok, .ok⟩

/-- Snapshot on which the main loop never terminates: the mutable memtable
holds only `RDel([ka, km), 10)`; the (single) immutable memtable holds only
`RDel([kb, kc), 5)`.  Processing the immutable level reaches a state where
the del-list element `[ka, km)` fully contains the current tombstone
`[kb, kc)` and the loop body changes nothing. -/
def storeC3 : StoreSnapshot :=
  ⟨⟨[], [⟨ka, km, 10⟩], .ok, .ok⟩, [⟨[], [⟨kb, kc, 5⟩], .ok, .ok⟩], [], []⟩

/-- Snapshot whose mutable memtable's values iterator reports `IOError`
(and accordingly yields no entries). -/
def storeC5 : StoreSnapshot := ⟨⟨[], [], .ioError, .ok⟩, [], [], []⟩

/-- Global context after `storeC3`'s mutable memtable has been processed:
its tombstone `[ka, km)` sits in the del-list. -/
def gcMutC3 : GlobalContext := ⟨[], [], [.range ka km], 1⟩

/-- Level context at the end of `storeC3`'s mutable-memtable processing
(both iterators exhausted). -/
def lcMutC3 : LevelContext :=
  ⟨⟨⟨[], 0, .ok⟩, [], false⟩, ⟨some ⟨[⟨ka, km, 10⟩], 1, .ok⟩, [], false⟩,
   ⟨[], 0, .other⟩, .NONE, false⟩

/-- Global context at the head of the immutable-memtable loop of `storeC3`:
del-list cursor on `[ka, km)`. -/
def gcStuckC3 : GlobalContext := ⟨[], [], [.range ka km], 0⟩

/-- Level context at the head of the immutable-memtable loop of `storeC3`:
values iterator empty, tombstone cursor on `[kb, kc)` which is fully
contained in the del-list element `[ka, km)` — the loop body maps this state
to itself. -/
def lcStuckC3 : LevelContext :=
  ⟨⟨⟨[], 0, .ok⟩, [], false⟩, ⟨some ⟨[⟨kb, kc, 5⟩], 0, .ok⟩, [], true⟩,
   ⟨[], 0, .other⟩, .NONE, false⟩

/-- Coherence of the cached validity flag of a value-iterator adapter with
its current position and bound (established by construction and re-established
by `UpdateValidity` after every operation). -/
def viterComputed (w : InternalIteratorWrapper) : Prop :=
  w.valid = InternalIteratorWrapper.computeValid w.inner w.ub

/-- Loop invariant for CSK monotonicity inside one level: the values
iterator's bound is the level-entry CSK `c0` and its validity flag is
coherent; the global CSK is unchanged while the level's flag is unset, and
once the flag is set the CSK has strictly decreased below a nonempty `c0`. -/
def cskInv (c0 : UserKey) (gc : GlobalContext) (lc : LevelContext) : Prop :=
  lc.valuesIter.ub = c0 ∧
  viterComputed lc.valuesIter ∧
  (lc.newCskFoundInLevel = false → gc.csk = c0) ∧
  (lc.newCskFoundInLevel = true → (c0 = [] ∨ ukLt gc.csk c0 = true))

/-! ## Totality of the relative-position classifiers -/

theorem compareDelElemToUserKey_total (d : DelElement) (k : UserKey) :
    CompareDelElemToUserKey d k ≠ .NONE := by
  cases d <;> simp only [CompareDelElemToUserKey] <;> split_ifs <;> simp

theorem compareRangeTsToUserKey_total (r : RangeTombstone) (k : UserKey) :
    CompareRangeTsToUserKey r k ≠ .NONE := by
  simp only [CompareRangeTsToUserKey]; split_ifs <;> simp

theorem compareDelElemToRangeTs_total (d : DelElement) (r : RangeTombstone) :
    (CompareDelElemToRangeTs d r).1 ≠ .NONE := by
  cases d <;> simp only [CompareDelElemToRangeTs] <;> split_ifs <;> simp

/-! ## The main loop only ever halts with `OK` -/

theorem loopStep_go (gc : GlobalContext) (lc : LevelContext) :
    ∀ st gc' lc', loopStep gc lc ≠ .halt st gc' lc' := by
  intro st gc' lc' h
  unfold loopStep at h
  split at h
  · exact StepResult.noConfusion h
  · simp only at h
    split at h
    · exact StepResult.noConfusion h
    · split at h
      · exact StepResult.noConfusion h
      · split at h <;> try exact StepResult.noConfusion h
        · split at h <;> try exact StepResult.noConfusion h
          split at h <;> try exact StepResult.noConfusion h
          split at h <;> exact StepResult.noConfusion h
        · next heq => exact compareRangeTsToUserKey_total _ _ heq

theorem runLoop_exit {lc : LevelContext} (h : loopGuard lc = false) :
    ∀ fuel gc, runLoop fuel gc lc = some (.ok, gc, lc) := by
  intro fuel gc
  cases fuel <;> simp [runLoop, h]

theorem runLoop_stuck {gc : GlobalContext} {lc : LevelContext}
    (hg : loopGuard lc = true) (hs : loopStep gc lc = .go gc lc) :
    ∀ fuel, runLoop fuel gc lc = none := by
  intro fuel
  induction fuel with
  | zero => simp [runLoop, hg]
  | succ n ih =>
    simp only [runLoop, hg, hs, reduceIte]
    exact ih

theorem runLoop_two {gc gc' : GlobalContext} {lc lc' : LevelContext}
    (hg : loopGuard lc = true) (hs : loopStep gc lc = .go gc' lc')
    (hg' : loopGuard lc' = false) :
    ∀ fuel, runLoop (fuel + 1) gc lc = some (.ok, gc', lc') := by
  intro fuel
  simp only [runLoop, hg, hs, reduceIte]
  exact runLoop_exit hg' fuel gc'

theorem runLoop_status : ∀ fuel gc lc st gc' lc',
    runLoop fuel gc lc = some (st, gc', lc') → st = .ok := by
  intro fuel
  induction fuel with
  | zero =>
    intro gc lc st gc' lc' h
    unfold runLoop at h
    split at h
    · exact Option.noConfusion h
    · injection h with h'
      injection h' with h1 _
      exact h1.symm
  | succ n ih =>
    intro gc lc st gc' lc' h
    unfold runLoop at h
    split at h
    · split at h
      · exact ih _ _ _ _ _ h
      · next heq => exact absurd heq (loopStep_go _ _ _ _ _)
    · injection h with h'
      injection h' with h1 _
      exact h1.symm

theorem processLogLevel_status {fuel : Nat} {gc : GlobalContext} {lc : LevelContext}
    {st : GsStatus} {gc' : GlobalContext} {lc' : LevelContext}
    (h : ProcessLogLevel fuel gc lc = some (st, gc', lc')) : st = .ok := by
  unfold ProcessLogLevel at h
  split at h <;> exact runLoop_status _ _ _ _ _ _ h

theorem processMutableMemtable_status {fuel : Nat} {gc : GlobalContext} {ld : LevelData}
    {st : GsStatus} {gc' : GlobalContext}
    (h : ProcessMutableMemtable fuel gc ld = some (st, gc')) : st = .ok := by
  unfold ProcessMutableMemtable at h
  cases hp : ProcessLogLevel fuel gc (mkLevelContext ld gc.csk) with
  | none => rw [hp] at h; exact Option.noConfusion h
  | some r =>
    rw [hp] at h
    obtain ⟨st0, gc0, lc0⟩ := r
    injection h with h'
    injection h' with h1 _
    exact h1 ▸ processLogLevel_status hp

theorem processLevelsSeq_status : ∀ (lds : List LevelData) (fuel : Nat)
    (gc : GlobalContext) (st : GsStatus) (gc' : GlobalContext),
    ProcessLevelsSeq fuel gc lds = some (st, gc') → st = .ok := by
  intro lds
  induction lds with
  | nil =>
    intro fuel gc st gc' h
    unfold ProcessLevelsSeq at h
    injection h with h'
    injection h' with h1 _
    exact h1.symm
  | cons ld rest ih =>
    intro fuel gc st gc' h
    unfold ProcessLevelsSeq at h
    split at h
    · exact Option.noConfusion h
    · next st0 gc0 _ heq =>
      split at h
      · exact ih _ _ _ _ h
      · next hne =>
        injection h with h'
        injection h' with h1 _
        exact absurd (h1 ▸ processLogLevel_status heq) (h1 ▸ hne)

theorem processLevelsGt0_status : ∀ (lds : List LevelData) (fuel : Nat)
    (gc : GlobalContext) (st : GsStatus) (gc' : GlobalContext),
    ProcessLevelsGt0 fuel gc lds = some (st, gc') → st = .ok := by
  intro lds
  induction lds with
  | nil =>
    intro fuel gc st gc' h
    unfold ProcessLevelsGt0 at h
    injection h with h'
    injection h' with h1 _
    exact h1.symm
  | cons ld rest ih =>
    intro fuel gc st gc' h
    unfold ProcessLevelsGt0 at h
    split at h
    · exact ih _ _ _ _ h
    · split at h
      · exact Option.noConfusion h
      · next st0 gc0 _ heq =>
        split at h
        · exact ih _ _ _ _ h
        · next hne =>
          injection h with h'
          injection h' with h1 _
          exact absurd (h1 ▸ processLogLevel_status heq) (h1 ▸ hne)

/-- Every completed run of the level pipeline reports `OK`. -/
theorem runLevels_status : ∀ (fuel : Nat) (s : StoreSnapshot) (target : UserKey)
    (st : GsStatus) (gc : GlobalContext),
    RunLevels fuel s target = some (st, gc) → st = .ok := by
  intro fuel s target st gc h
  unfold RunLevels at h
  cases h1 : ProcessMutableMemtable fuel ⟨target, [], [], 0⟩ s.mutableMem with
  | none => rw [h1] at h; exact Option.noConfusion h
  | some r1 =>
    rw [h1] at h
    obtain ⟨st1, gc1⟩ := r1
    have hst1 := processMutableMemtable_status h1
    subst hst1
    simp only [reduceIte] at h
    cases h2 : ProcessLevelsSeq fuel gc1 s.immutables with
    | none => rw [h2] at h; exact Option.noConfusion h
    | some r2 =>
      rw [h2] at h
      obtain ⟨st2, gc2⟩ := r2
      have hst2 := processLevelsSeq_status _ _ _ _ _ h2
      subst hst2
      simp only [reduceIte] at h
      cases h3 : ProcessLevelsSeq fuel gc2 s.level0 with
      | none => rw [h3] at h; exact Option.noConfusion h
      | some r3 =>
        rw [h3] at h
        obtain ⟨st3, gc3⟩ := r3
        have hst3 := processLevelsSeq_status _ _ _ _ _ h3
        subst hst3
        simp only [reduceIte] at h
        exact processLevelsGt0_status _ _ _ _ _ h

/-- Shape of every completed query result: `NotFound` with an empty key, or
`OK` with a nonempty key. -/
theorem getSmallest_result_shape : ∀ (fuel : Nat) (s : StoreSnapshot) (target : UserKey)
    (st : GsStatus) (k : UserKey),
    GetSmallestAtOrAfter fuel s target = some (st, k) →
    (st = .notFound ∧ k = []) ∨ (st = .ok ∧ k ≠ []) := by
  intro fuel s target st k h
  unfold GetSmallestAtOrAfter at h
  cases hr : RunLevels fuel s target with
  | none => rw [hr] at h; exact Option.noConfusion h
  | some r =>
    rw [hr] at h
    obtain ⟨st4, gc4⟩ := r
    have hst4 := runLevels_status _ _ _ _ _ hr
    subst hst4
    dsimp only at h
    split at h
    · next hempty =>
      injection h with h'
      injection h' with hst hk
      exact Or.inl ⟨hst.symm, hk.symm⟩
    · next hempty =>
      injection h with h'
      injection h' with hst hk
      refine Or.inr ⟨hst.symm, ?_⟩
      intro hknil
      rw [← hk] at hknil
      rw [hknil] at hempty
      exact hempty rfl

/-- C9: when the CSK is still empty after all levels are processed,
`GetSmallestAtOrAfter` sets the output key to the empty string and returns
`NotFound`. -/
theorem c9_empty_csk_notfound : ∀ (fuel : Nat) (s : StoreSnapshot) (target : UserKey)
    (st : GsStatus) (gc : GlobalContext),
    RunLevels fuel s target = some (st, gc) → gc.csk = [] →
    GetSmallestAtOrAfter fuel s target = some (.notFound, []) := by
  intro fuel s target st gc h hcsk
  unfold GetSmallestAtOrAfter
  rw [h]
  dsimp only
  rw [hcsk]
  rfl

theorem c9_empty_csk_notfound_witness :
    GetSmallestAtOrAfter 1 storeC5 [] = some (.notFound, []) :=
  c9_empty_csk_notfound 1 storeC5 [] .ok ⟨[], [], [], 0⟩ (by decide) rfl

/-- C5: refuted — a query during which a wrapped iterator's `status()` is
non-OK (here the mutable memtable's values iterator reports `IOError`)
completes with `NotFound` instead of aborting with that status:
`ProcessLogLevel` never consults `status()`. -/
theorem c5_status_cex :
    (mkLevelContext storeC5.mutableMem []).valuesIter.status = .ioError ∧
    GetSmallestAtOrAfter 1 storeC5 [] = some (.notFound, []) ∧
    (GsStatus.notFound : GsStatus) ≠ .ioError := by
  exact ⟨rfl, by decide, by decide⟩

/-- C5 (amended): wrapped-iterator statuses are never consulted, so whenever
the query completes its status is `OK` or `NotFound` — never an I/O error or
corruption status, whatever the statuses of the wrapped iterators. -/
theorem c5_status_never_surfaced : ∀ (fuel : Nat) (s : StoreSnapshot) (target : UserKey)
    (st : GsStatus) (k : UserKey),
    GetSmallestAtOrAfter fuel s target = some (st, k) →
    st = .ok ∨ st = .notFound := by
  intro fuel s target st k h
  rcases getSmallest_result_shape fuel s target st k h with ⟨h1, _⟩ | ⟨h1, _⟩
  · exact Or.inr h1
  · exact Or.inl h1

theorem c5_status_never_surfaced_witness :
    (GsStatus.notFound : GsStatus) = .ok ∨ (GsStatus.notFound : GsStatus) = .notFound :=
  c5_status_never_surfaced 1 storeC5 [] .notFound [] (by decide)

/-- C10: the `Aborted` status is unreachable — every classifier returns
`BEFORE`, `AFTER` or `OVERLAP` (never the `NONE` default that triggers the
impossible-case branches), and no completed query ever reports `Aborted`. -/
theorem c10_aborted_unreachable :
    (∀ (d : DelElement) (k : UserKey), CompareDelElemToUserKey d k ≠ .NONE) ∧
    (∀ (r : RangeTombstone) (k : UserKey), CompareRangeTsToUserKey r k ≠ .NONE) ∧
    (∀ (d : DelElement) (r : RangeTombstone), (CompareDelElemToRangeTs d r).1 ≠ .NONE) ∧
    (∀ (fuel : Nat) (s : StoreSnapshot) (target : UserKey) (st : GsStatus) (k : UserKey),
      GetSmallestAtOrAfter fuel s target = some (st, k) → st ≠ .aborted) := by
  refine ⟨compareDelElemToUserKey_total, compareRangeTsToUserKey_total,
          compareDelElemToRangeTs_total, ?_⟩
  intro fuel s target st k h
  rcases getSmallest_result_shape fuel s target st k h with ⟨h1, _⟩ | ⟨h1, _⟩ <;>
    simp [h1]

theorem c10_aborted_unreachable_witness :
    (GsStatus.notFound : GsStatus) ≠ .aborted :=
  c10_aborted_unreachable.2.2.2 1 storeC5 [] .notFound [] (by decide)

/-- C8: on a valid position of the range-tombstone adapter with its upper
bound set, `Tombstone()` returns the underlying tombstone unchanged when its
end is at most the bound, and the tombstone clipped to end at the bound
otherwise; either way the returned tombstone starts strictly below and ends
at or below the bound.  (The validity flag is the one the adapter itself
maintains, i.e. it equals `computeValid` of the current position.) -/
theorem c8_tombstone_clipped : ∀ (w : TruncatedRangeDelIteratorWrapper) (it : WrappedTIter),
    w.inner = some it →
    w.valid = TruncatedRangeDelIteratorWrapper.computeValid w.inner w.ub →
    w.valid = true →
    w.ub.isEmpty = false →
    (ukLe it.currTs.endKey w.ub = true → w.Tombstone = it.currTs) ∧
    (ukLe it.currTs.endKey w.ub = false →
      w.Tombstone = ⟨it.currTs.startKey, w.ub, it.currTs.seqno⟩) ∧
    ukLt w.Tombstone.startKey w.ub = true ∧
    ukLe w.Tombstone.endKey w.ub = true := by
  intro w it hinner hcomp hvalid hub
  have hstart : ukLt it.currTs.startKey w.ub = true := by
    rw [hvalid, hinner] at hcomp
    unfold TruncatedRangeDelIteratorWrapper.computeValid at hcomp
    rw [hub] at hcomp
    have h2 := hcomp.symm
    simp only [Bool.false_or, Bool.and_eq_true] at h2
    exact h2.2
  have htomb : w.Tombstone =
      (if ukLe it.currTs.endKey w.ub = true then it.currTs
       else ⟨it.currTs.startKey, w.ub, it.currTs.seqno⟩) := by
    unfold TruncatedRangeDelIteratorWrapper.Tombstone
    rw [hinner, hub]
    simp only [Bool.false_eq_true, reduceIte]
  by_cases hend : ukLe it.currTs.endKey w.ub = true
  · rw [htomb, if_pos hend]
    exact ⟨fun _ => rfl,
      fun hc => by rw [hend] at hc; exact Bool.noConfusion hc,
      hstart, hend⟩
  · have hend' : ukLe it.currTs.endKey w.ub = false := by
      rw [Bool.not_eq_true] at hend
      exact hend
    rw [htomb, if_neg hend]
    refine ⟨fun hc => by rw [hend'] at hc; exact Bool.noConfusion hc,
      fun _ => rfl, hstart, ?_⟩
    simp only [ukLe, decide_eq_true_eq]
    exact le_refl w.ub

theorem c8_tombstone_clipped_witness :
    ((⟨some ⟨[⟨ka, kf, 10⟩], 0, .ok⟩, kc, true⟩ : TruncatedRangeDelIteratorWrapper).inner
        = some ⟨[⟨ka, kf, 10⟩], 0, .ok⟩) ∧
    ((⟨some ⟨[⟨ka, kf, 10⟩], 0, .ok⟩, kc, true⟩ : TruncatedRangeDelIteratorWrapper).Tombstone
        = ⟨ka, kc, 10⟩) := by
  refine ⟨rfl, ?_⟩
  have h := c8_tombstone_clipped ⟨some ⟨[⟨ka, kf, 10⟩], 0, .ok⟩, kc, true⟩
    ⟨[⟨ka, kf, 10⟩], 0, .ok⟩ rfl (by decide) rfl rfl
  exact h.2.1 (by decide)

/-! ## Validity of the value-iterator adapter is maintained by every operation -/

theorem viter_op_computed (w : InternalIteratorWrapper) (op : VIterOp) :
    (applyVIterOp w op).valid =
      InternalIteratorWrapper.computeValid (applyVIterOp w op).inner (applyVIterOp w op).ub := by
  cases op <;> rfl

theorem viter_mk0_computed (entries : List IKey) (stat : GsStatus) (ub : UserKey) :
    (InternalIteratorWrapper.mk0 entries stat ub).valid =
      InternalIteratorWrapper.computeValid (InternalIteratorWrapper.mk0 entries stat ub).inner
        (InternalIteratorWrapper.mk0 entries stat ub).ub := by
  unfold InternalIteratorWrapper.mk0 InternalIteratorWrapper.computeValid WrappedVIter.valid
  simp

theorem viter_ops_computed : ∀ (ops : List VIterOp) (w : InternalIteratorWrapper),
    w.valid = InternalIteratorWrapper.computeValid w.inner w.ub →
    (applyVIterOps w ops).valid =
      InternalIteratorWrapper.computeValid (applyVIterOps w ops).inner
        (applyVIterOps w ops).ub := by
  intro ops
  induction ops with
  | nil => intro w h; exact h
  | cons op rest ih => intro w _; exact ih (applyVIterOp w op) (viter_op_computed w op)

/-- C6: for the value-iterator adapter, at every position reachable from
construction by any sequence of `SeekToFirst`/`Seek`/`Next`/`SetUpperBound`
operations, if the upper bound is set then `Valid()` is true exactly when the
wrapped cursor is not exhausted and the current entry's user key is strictly
below the bound. -/
theorem c6_upper_bound_validity : ∀ (entries : List IKey) (stat : GsStatus)
    (ub0 : UserKey) (ops : List VIterOp),
    (applyVIterOps (InternalIteratorWrapper.mk0 entries stat ub0) ops).ub.isEmpty = false →
    ((applyVIterOps (InternalIteratorWrapper.mk0 entries stat ub0) ops).valid = true ↔
      ((applyVIterOps (InternalIteratorWrapper.mk0 entries stat ub0) ops).inner.pos <
          (applyVIterOps (InternalIteratorWrapper.mk0 entries stat ub0) ops).inner.entries.length ∧
        ukLt (applyVIterOps (InternalIteratorWrapper.mk0 entries stat ub0) ops).currKey.ukey
          (applyVIterOps (InternalIteratorWrapper.mk0 entries stat ub0) ops).ub = true)) := by
  intro entries stat ub0 ops hub
  have h := viter_ops_computed ops (InternalIteratorWrapper.mk0 entries stat ub0)
    (viter_mk0_computed entries stat ub0)
  rw [h]
  unfold InternalIteratorWrapper.computeValid WrappedVIter.valid
  rw [hub]
  simp [InternalIteratorWrapper.currKey, Bool.and_eq_true]

theorem c6_upper_bound_validity_witness :
    (applyVIterOps (InternalIteratorWrapper.mk0 [⟨kb, 5, .value⟩] .ok kc)
      [.seekToFirst]).valid = true :=
  (c6_upper_bound_validity [⟨kb, 5, .value⟩] .ok kc [.seekToFirst] rfl).mpr (by decide)

/-! ## Levels above 0: the null range-tombstone wrapper is inert -/

theorem tnull_ops_fixed : ∀ (ops : List TIterOp) (ub : UserKey),
    ∃ u, applyTIterOps (TruncatedRangeDelIteratorWrapper.mk0 none ub) ops =
      TruncatedRangeDelIteratorWrapper.mk0 none u := by
  intro ops
  induction ops with
  | nil => intro ub; exact ⟨ub, rfl⟩
  | cons op rest ih =>
    intro ub
    cases op with
    | seekToFirst => exact ih ub
    | seek k => exact ih ub
    | next => exact ih ub
    | setUpperBound k => exact ih k

theorem pll_ignores_delPos (fuel : Nat) (t c : UserKey) (dl : List DelElement)
    (p p' : Nat) (lc : LevelContext) :
    ProcessLogLevel fuel ⟨t, c, dl, p⟩ lc = ProcessLogLevel fuel ⟨t, c, dl, p'⟩ lc := by
  unfold ProcessLogLevel GlobalContext.delSeekToFirst GlobalContext.delSeek
  cases t <;> rfl

theorem pll_gt0_no_entries (fuel : Nat) (gc : GlobalContext) (ld : LevelData)
    (h : ld.entries = []) :
    ∃ lc', ProcessLogLevel fuel gc (mkLevelContextGt0 ld gc.csk) =
      some (.ok, (if gc.target.isEmpty then gc.delSeekToFirst else gc.delSeek gc.target), lc') := by
  obtain ⟨es, tss, vs, ts⟩ := ld
  simp only at h
  subst h
  unfold ProcessLogLevel
  cases hb : gc.target.isEmpty with
  | true =>
    simp only [hb, reduceIte]
    refine ⟨_, runLoop_exit ?_ fuel gc.delSeekToFirst⟩
    rfl
  | false =>
    simp only [hb, Bool.false_eq_true, reduceIte]
    refine ⟨_, runLoop_exit ?_ fuel (gc.delSeek gc.target)⟩
    rfl

theorem gt0_erase_matches (fuel : Nat) : ∀ (lds : List LevelData) (gc gc' : GlobalContext),
    gc.target = gc'.target → gc.csk = gc'.csk → gc.delList = gc'.delList →
    ((ProcessLevelsGt0 fuel gc (lds.map (fun ld => { ld with tss := [] })) = none ∧
      ProcessLevelsGt0 fuel gc' lds = none) ∨
     (∃ st h h', ProcessLevelsGt0 fuel gc (lds.map (fun ld => { ld with tss := [] })) = some (st, h) ∧
        ProcessLevelsGt0 fuel gc' lds = some (st, h') ∧
        h.target = h'.target ∧ h.csk = h'.csk ∧ h.delList = h'.delList)) := by
  intro lds
  induction lds with
  | nil =>
    intro gc gc' ht hc hd
    exact Or.inr ⟨.ok, gc, gc', rfl, rfl, ht, hc, hd⟩
  | cons ld rest ih =>
    intro gc gc' ht hc hd
    simp only [List.map_cons]
    unfold ProcessLevelsGt0
    cases he : ld.entries.isEmpty with
    | true =>
      simp only [he, Bool.true_and, reduceIte, List.isEmpty_nil]
      cases hts : ld.tss.isEmpty with
      | true =>
        simp only [hts, reduceIte]
        exact ih gc gc' ht hc hd
      | false =>
        simp only [hts, Bool.false_eq_true, reduceIte]
        obtain ⟨lc', hpll⟩ := pll_gt0_no_entries fuel gc' ld (List.isEmpty_iff.mp he)
        rw [hpll]
        simp only [reduceIte]
        cases hbt : gc'.target.isEmpty with
        | true =>
          rw [hbt] at hpll
          simp only [hbt, reduceIte]
          exact ih gc gc'.delSeekToFirst ht hc hd
        | false =>
          rw [hbt] at hpll
          simp only [hbt, Bool.false_eq_true, reduceIte]
          exact ih gc (gc'.delSeek gc'.target) ht hc hd
    | false =>
      simp only [he, Bool.false_and, Bool.false_eq_true, reduceIte]
      obtain ⟨t0, c0, dl0, p0⟩ := gc
      obtain ⟨t1, c1, dl1, p1⟩ := gc'
      simp only at ht hc hd
      subst ht; subst hc; subst hd
      have hmk : mkLevelContextGt0 { ld with tss := [] } c0 = mkLevelContextGt0 ld c0 := rfl
      rw [hmk, pll_ignores_delPos fuel t0 c0 dl0 p0 p1 (mkLevelContextGt0 ld c0)]
      cases hres : ProcessLogLevel fuel ⟨t0, c0, dl0, p1⟩ (mkLevelContextGt0 ld c0) with
      | none => exact Or.inl ⟨rfl, rfl⟩
      | some r =>
        obtain ⟨st0, g2, lc2⟩ := r
        simp only
        cases hst : decide (st0 = GsStatus.ok) with
        | true =>
          simp only [of_decide_eq_true hst, reduceIte]
          exact ih g2 g2 rfl rfl rfl
        | false =>
          have hne := of_decide_eq_false hst
          simp only [if_neg hne]
          exact Or.inr ⟨st0, g2, g2, rfl, rfl, rfl, rfl, rfl⟩

/-- C4: processing levels above 0 wraps a null tombstone cursor, so query
results are identical whether or not those levels hold range tombstones
(they are never read, never enter the del-list, never shadow anything), and
the null-wrapped adapter is never valid after any operation sequence. -/
theorem c4_gt0_null_range :
    (∀ (fuel : Nat) (s : StoreSnapshot) (target : UserKey),
      GetSmallestAtOrAfter fuel (eraseLowerLevelTss s) target =
        GetSmallestAtOrAfter fuel s target) ∧
    (∀ (ops : List TIterOp) (ub : UserKey),
      (applyTIterOps (TruncatedRangeDelIteratorWrapper.mk0 none ub) ops).valid = false) := by
  constructor
  · intro fuel s target
    unfold GetSmallestAtOrAfter RunLevels eraseLowerLevelTss
    simp only
    cases h1 : ProcessMutableMemtable fuel ⟨target, [], [], 0⟩ s.mutableMem with
    | none => rfl
    | some r1 =>
      obtain ⟨st1, gc1⟩ := r1
      simp only
      cases hst1 : decide (st1 = GsStatus.ok) with
      | false => simp only [if_neg (of_decide_eq_false hst1)]
      | true =>
        simp only [of_decide_eq_true hst1, reduceIte]
        cases h2 : ProcessLevelsSeq fuel gc1 s.immutables with
        | none => rfl
        | some r2 =>
          obtain ⟨st2, gc2⟩ := r2
          simp only
          cases hst2 : decide (st2 = GsStatus.ok) with
          | false => simp only [if_neg (of_decide_eq_false hst2)]
          | true =>
            simp only [of_decide_eq_true hst2, reduceIte]
            cases h3 : ProcessLevelsSeq fuel gc2 s.level0 with
            | none => rfl
            | some r3 =>
              obtain ⟨st3, gc3⟩ := r3
              simp only
              cases hst3 : decide (st3 = GsStatus.ok) with
              | false => simp only [if_neg (of_decide_eq_false hst3)]
              | true =>
                simp only [of_decide_eq_true hst3, reduceIte]
                rcases gt0_erase_matches fuel s.lowerLevels gc3 gc3 rfl rfl rfl with
                  ⟨ha, hb⟩ | ⟨st4, h4, h4', ha, hb, _, hcsk, _⟩
                · rw [ha, hb]
                · rw [ha, hb]
                  simp only [hcsk]
  · intro ops ub
    obtain ⟨u, hu⟩ := tnull_ops_fixed ops ub
    rw [hu]
    rfl

/-- C1: refuted (code bug) — on `storeC1` no user key is live (the level-1
range tombstone `[ka, kc) @ 10` covers the only key `kb @ 5`), and a naive
scan of the snapshot returns nothing; `GetSmallestAtOrAfter` nevertheless
returns `OK` with `kb`, because levels above 0 are processed with a null
range-tombstone cursor and their tombstones are dropped. -/
theorem c1_correctness_code_bug :
    GetSmallestAtOrAfter 10 storeC1 [] = some (.ok, kb) ∧
    naiveSmallestAtOrAfter storeC1 [] = none := by
  exact ⟨by decide, by decide⟩

/-- C2: refuted — after processing `levelC2` (value `kc @ 30` overlapped by
the older tombstone `[kb, kf) @ 10`), the OVERLAP branch first updates the
CSK to `kc` and then folds the un-reclipped tombstone into the del-list: the
resulting element `[kb, kf)` extends past the CSK `kc`, violating the
claimed scope invariant. -/
theorem c2_del_list_scope_cex :
    ProcessMutableMemtable 10 ⟨[], [], [], 0⟩ levelC2 =
      some (.ok, ⟨[], kc, [.range kb kf], 1⟩) ∧
    delElemWithin (.range kb kf) [] kc = false := by
  exact ⟨by decide, by decide⟩

theorem trim_below (l : List DelElement) (ub : UserKey) :
    ∀ e ∈ GlobalDelList.Trim l ub, delElemBelow e ub = true := by
  intro e he
  unfold GlobalDelList.Trim at he
  rw [List.mem_filterMap] at he
  obtain ⟨d, _, hd⟩ := he
  cases d with
  | point p =>
    simp only at hd
    split at hd
    · next hp =>
      injection hd with h
      subst h
      exact hp
    · exact Option.noConfusion hd
  | range s e0 =>
    simp only at hd
    split at hd
    · exact Option.noConfusion hd
    · next hub_s =>
      have hs : ukLt s ub = true := by
        rw [Bool.not_eq_true] at hub_s
        simp only [ukLe, decide_eq_false_iff_not] at hub_s
        simp only [ukLt, decide_eq_true_eq]
        exact lt_of_not_le hub_s
      split at hd
      · injection hd with h
        subst h
        simp only [delElemBelow, hs, Bool.true_and, ukLe, decide_eq_true_eq]
        exact le_refl ub
      · next hnoclip =>
        injection hd with h
        subst h
        rw [Bool.not_eq_true] at hnoclip
        simp only [ukLt, decide_eq_false_iff_not] at hnoclip
        simp only [delElemBelow, hs, Bool.true_and, ukLe, decide_eq_true_eq]
        exact le_of_not_lt hnoclip

/-- C2 (amended): immediately after every `UpdateCSK` — which trims the
del-list to the new CSK — every del-list element lies entirely below the
CSK; the full claimed invariant (every element within `[target, CSK)` after
every del-list mutation) fails right after the OVERLAP branch's fold of the
pre-update tombstone. -/
theorem c2_trim_below_csk (gc : GlobalContext) (lc : LevelContext) :
    ∀ e ∈ (UpdateCSK gc lc).1.delList, delElemBelow e (UpdateCSK gc lc).1.csk = true := by
  intro e he
  unfold UpdateCSK at he ⊢
  simp only at he ⊢
  exact trim_below _ _ e he

theorem c2_trim_below_csk_witness :
    delElemBelow (.range kb kc) kc = true :=
  c2_trim_below_csk ⟨[], [], [.range kb kf], 0⟩
    ⟨InternalIteratorWrapper.mk0 [] .ok [], TruncatedRangeDelIteratorWrapper.mk0 none [],
     ⟨kc, 30, .value⟩, .VALUE, false⟩
    (.range kb kc) (by decide)

/-- C3: refuted (code bug) — on `storeC3` the immutable-memtable loop reaches
the OVERLAP sub-case in which the del-list element `[ka, km)` fully contains
the current tombstone `[kb, kc)`; the body advances nothing and the loop
never terminates: the query exhausts every amount of fuel. -/
theorem c3_no_progress_diverges :
    ∀ fuel, GetSmallestAtOrAfter fuel storeC3 [] = none := by
  intro fuel
  cases fuel with
  | zero => decide
  | succ n =>
    have hmut : ProcessLogLevel (n + 1) ⟨[], [], [], 0⟩
        (mkLevelContext storeC3.mutableMem []) = some (.ok, gcMutC3, lcMutC3) := by
      show runLoop (n + 1) ((⟨[], [], [], 0⟩ : GlobalContext).delSeekToFirst)
        { mkLevelContext storeC3.mutableMem [] with
          valuesIter := (mkLevelContext storeC3.mutableMem []).valuesIter.SeekToFirst,
          rangeDelIter := (mkLevelContext storeC3.mutableMem []).rangeDelIter.SeekToFirst } =
        some (.ok, gcMutC3, lcMutC3)
      exact runLoop_two (by decide) (by decide) (by decide) n
    have hm2 : ProcessMutableMemtable (n + 1) ⟨[], [], [], 0⟩ storeC3.mutableMem =
        some (.ok, gcMutC3) := by
      unfold ProcessMutableMemtable
      rw [hmut]
      rfl
    have himm : ProcessLogLevel (n + 1) gcMutC3
        (mkLevelContext ⟨[], [⟨kb, kc, 5⟩], .ok, .ok⟩ gcMutC3.csk) = none := by
      show runLoop (n + 1) gcStuckC3 lcStuckC3 = none
      exact runLoop_stuck (by decide) (by decide) (n + 1)
    have hseq : ProcessLevelsSeq (n + 1) gcMutC3 storeC3.immutables = none := by
      unfold ProcessLevelsSeq
      simp only [storeC3]
      rw [himm]
    unfold GetSmallestAtOrAfter RunLevels
    rw [hm2]
    dsimp only
    simp only [reduceIte]
    rw [hseq]

/-! ## CSK monotonicity -/

theorem viter_valid_lt (w : InternalIteratorWrapper) (hc : viterComputed w)
    (hv : w.valid = true) (hub : w.ub ≠ []) : ukLt w.currKey.ukey w.ub = true := by
  unfold viterComputed InternalIteratorWrapper.computeValid at hc
  rw [hv] at hc
  have h2 := hc.symm
  simp only [Bool.and_eq_true, Bool.or_eq_true] at h2
  rcases h2.2 with h3 | h3
  · exact absurd (List.isEmpty_iff.mp h3) hub
  · exact h3

theorem procRange_frame (gc : GlobalContext) (lc : LevelContext) (r : RangeTombstone) :
    (ProcessCurrRangeTsVsDelList gc lc r).1.csk = gc.csk ∧
    (ProcessCurrRangeTsVsDelList gc lc r).2.newCskFoundInLevel = lc.newCskFoundInLevel ∧
    (ProcessCurrRangeTsVsDelList gc lc r).2.valuesIter = lc.valuesIter := by
  unfold ProcessCurrRangeTsVsDelList
  dsimp only
  repeat' split
  all_goals exact ⟨rfl, rfl, rfl⟩

theorem cskInv_procRange (c0 : UserKey) (gc : GlobalContext) (lc : LevelContext)
    (r : RangeTombstone) (h : cskInv c0 gc lc) :
    cskInv c0 (ProcessCurrRangeTsVsDelList gc lc r).1 (ProcessCurrRangeTsVsDelList gc lc r).2 := by
  obtain ⟨h1, h2, h3, h4⟩ := h
  obtain ⟨f1, f2, f3⟩ := procRange_frame gc lc r
  refine ⟨?_, ?_, ?_, ?_⟩
  · rw [f3]; exact h1
  · unfold viterComputed
    rw [f3]
    exact h2
  · intro hf
    rw [f2] at hf
    rw [f1]
    exact h3 hf
  · intro hf
    rw [f2] at hf
    rw [f1]
    exact h4 hf

theorem procValues_inv (c0 : UserKey) (gc : GlobalContext) (lc : LevelContext)
    (hub : lc.valuesIter.ub = c0)
    (hcomp : viterComputed lc.valuesIter)
    (hcsk : gc.csk = c0)
    (hflag : lc.newCskFoundInLevel = false)
    (hvalid : lc.valuesIter.valid = true)
    (hparsed : lc.valuesParsedIKey = lc.valuesIter.currKey) :
    cskInv c0 (ProcessCurrValuesIterVsDelList gc lc).1
      (ProcessCurrValuesIterVsDelList gc lc).2.1 := by
  have hflagImp : lc.newCskFoundInLevel = true → (c0 = [] ∨ ukLt gc.csk c0 = true) := by
    intro ht
    rw [hflag] at ht
    exact Bool.noConfusion ht
  unfold ProcessCurrValuesIterVsDelList
  dsimp only
  split
  · -- del-elem BEFORE the key: only the del cursor moves
    exact ⟨hub, hcomp, fun _ => hcsk, hflagImp⟩
  · -- del-elem AFTER the key
    split
    · -- VALUE or MERGE_VALUE: UpdateCSK
      unfold UpdateCSK
      dsimp only
      refine ⟨hub, hcomp, fun hf => Bool.noConfusion hf, fun _ => ?_⟩
      by_cases hc0 : c0 = []
      · exact Or.inl hc0
      · refine Or.inr ?_
        have hubne : lc.valuesIter.ub ≠ [] := by rw [hub]; exact hc0
        have hlt := viter_valid_lt lc.valuesIter hcomp hvalid hubne
        rw [hub] at hlt
        rw [hparsed]
        exact hlt
    · split
      · -- DEL_KEY: insert a point, advance the values iterator
        exact ⟨hub, rfl, fun _ => hcsk, hflagImp⟩
      · -- neither: nothing happens
        exact ⟨hub, hcomp, fun _ => hcsk, hflagImp⟩
  · -- del-elem OVERLAPs the key: advance the values iterator
    split
    · exact ⟨hub, rfl, fun _ => hcsk, hflagImp⟩
    · exact ⟨hub, rfl, fun _ => hcsk, hflagImp⟩
  · -- impossible NONE default
    exact ⟨hub, hcomp, fun _ => hcsk, hflagImp⟩

theorem loopStep_inv (c0 : UserKey) (gc gc' : GlobalContext) (lc lc' : LevelContext)
    (hinv : cskInv c0 gc lc) (hflag : lc.newCskFoundInLevel = false)
    (h : loopStep gc lc = .go gc' lc') : cskInv c0 gc' lc' := by
  obtain ⟨hub, hcomp, hcsk0, _⟩ := hinv
  have hcsk : gc.csk = c0 := hcsk0 hflag
  have hflagImp : lc.newCskFoundInLevel = true → (c0 = [] ∨ ukLt gc.csk c0 = true) := by
    intro ht
    rw [hflag] at ht
    exact Bool.noConfusion ht
  unfold loopStep at h
  split at h
  · -- values iterator invalid: range tombstone vs del-list
    injection h with h1 h2
    subst h1
    subst h2
    exact cskInv_procRange c0 gc lc _ ⟨hub, hcomp, hcsk0, hflagImp⟩
  · next hvne =>
    have hvalid : lc.valuesIter.valid = true := by
      cases hb : lc.valuesIter.valid with
      | false => exact absurd hb hvne
      | true => rfl
    dsimp only at h
    split at h
    · -- OTHER: skip the entry
      injection h with h1 h2
      subst h1
      subst h2
      exact ⟨hub, rfl, fun _ => hcsk, hflagImp⟩
    · split at h
      · -- range iterator invalid: values vs del-list
        injection h with h1 h2
        subst h1
        subst h2
        exact procValues_inv c0 gc _ hub hcomp hcsk hflag hvalid rfl
      · split at h
        · -- range BEFORE the key
          injection h with h1 h2
          subst h1
          subst h2
          exact cskInv_procRange c0 gc _ _ ⟨hub, hcomp, hcsk0, hflagImp⟩
        · -- range AFTER the key
          injection h with h1 h2
          subst h1
          subst h2
          exact procValues_inv c0 gc _ hub hcomp hcsk hflag hvalid rfl
        · -- range OVERLAPs the key
          split at h
          · -- DEL_KEY shadowed by the tombstone
            injection h with h1 h2
            subst h1
            subst h2
            exact ⟨hub, rfl, fun _ => hcsk, hflagImp⟩
          · split at h
            · -- older tombstone: values first, then fold the tombstone
              split at h
              · injection h with h1 h2
                subst h1
                subst h2
                exact cskInv_procRange c0 _ _ _
                  (procValues_inv c0 gc _ hub hcomp hcsk hflag hvalid rfl)
              · injection h with h1 h2
                subst h1
                subst h2
                exact procValues_inv c0 gc _ hub hcomp hcsk hflag hvalid rfl
            · -- newer tombstone shadows the value
              injection h with h1 h2
              subst h1
              subst h2
              exact ⟨hub, rfl, fun _ => hcsk, hflagImp⟩
        · exact StepResult.noConfusion h

theorem runLoop_inv (c0 : UserKey) : ∀ (fuel : Nat) (gc : GlobalContext) (lc : LevelContext)
    (st : GsStatus) (gc' : GlobalContext) (lc' : LevelContext),
    cskInv c0 gc lc →
    runLoop fuel gc lc = some (st, gc', lc') → cskInv c0 gc' lc' := by
  intro fuel
  induction fuel with
  | zero =>
    intro gc lc st gc' lc' hinv h
    unfold runLoop at h
    split at h
    · exact Option.noConfusion h
    · injection h with h1
      injection h1 with _ h2
      injection h2 with h3 h4
      subst h3
      subst h4
      exact hinv
  | succ n ih =>
    intro gc lc st gc' lc' hinv h
    unfold runLoop at h
    split at h
    · next hguard =>
      have hflag : lc.newCskFoundInLevel = false := by
        unfold loopGuard at hguard
        simp only [Bool.and_eq_true, Bool.not_eq_true'] at hguard
        exact hguard.1
      split at h
      · next heq => exact ih _ _ _ _ _ (loopStep_inv c0 _ _ _ _ hinv hflag heq) h
      · next heq => exact absurd heq (loopStep_go _ _ _ _ _)
    · injection h with h1
      injection h1 with _ h2
      injection h2 with h3 h4
      subst h3
      subst h4
      exact hinv

/-- C7: within one level — entered, as every driver call site does, with the
values iterator bounded by the current CSK, a coherent validity flag, and the
level flag unset — the CSK is unchanged unless `UpdateCSK` set the flag, in
which case the new CSK is strictly smaller than the previous one whenever one
existed; hence the CSK never increases during a query. -/
theorem c7_csk_monotone : ∀ (fuel : Nat) (gc : GlobalContext) (lc : LevelContext)
    (st : GsStatus) (gc2 : GlobalContext) (lc2 : LevelContext),
    lc.valuesIter.ub = gc.csk →
    viterComputed lc.valuesIter →
    lc.newCskFoundInLevel = false →
    ProcessLogLevel fuel gc lc = some (st, gc2, lc2) →
    (lc2.newCskFoundInLevel = false ∧ gc2.csk = gc.csk) ∨
    (lc2.newCskFoundInLevel = true ∧ (gc.csk = [] ∨ ukLt gc2.csk gc.csk = true)) := by
  intro fuel gc lc st gc2 lc2 hub hcomp hflag h
  have hflagImp : lc.newCskFoundInLevel = true → (gc.csk = [] ∨ ukLt gc.csk gc.csk = true) := by
    intro ht
    rw [hflag] at ht
    exact Bool.noConfusion ht
  unfold ProcessLogLevel at h
  have hfin : cskInv gc.csk gc2 lc2 := by
    split at h
    · refine runLoop_inv gc.csk fuel _ _ _ _ _ ?_ h
      exact ⟨hub, rfl, fun _ => rfl, hflagImp⟩
    · refine runLoop_inv gc.csk fuel _ _ _ _ _ ?_ h
      exact ⟨hub, rfl, fun _ => rfl, hflagImp⟩
  obtain ⟨_, _, h3, h4⟩ := hfin
  cases hf : lc2.newCskFoundInLevel with
  | false => exact Or.inl ⟨rfl, h3 hf⟩
  | true => exact Or.inr ⟨rfl, h4 hf⟩

theorem c7_csk_monotone_witness :
    ((⟨⟨⟨[⟨kc, 30, .value⟩], 0, .ok⟩, [], true⟩,
       ⟨some ⟨[⟨kb, kf, 10⟩], 1, .ok⟩, kc, false⟩,
       ⟨kc, 30, .value⟩, .VALUE, true⟩ : LevelContext).newCskFoundInLevel = false ∧
     (⟨[], kc, [.range kb kf], 1⟩ : GlobalContext).csk =
       (⟨[], [], [], 0⟩ : GlobalContext).csk) ∨
    ((⟨⟨⟨[⟨kc, 30, .value⟩], 0, .ok⟩, [], true⟩,
       ⟨some ⟨[⟨kb, kf, 10⟩], 1, .ok⟩, kc, false⟩,
       ⟨kc, 30, .value⟩, .VALUE, true⟩ : LevelContext).newCskFoundInLevel = true ∧
     ((⟨[], [], [], 0⟩ : GlobalContext).csk = [] ∨
      ukLt (⟨[], kc, [.range kb kf], 1⟩ : GlobalContext).csk
        (⟨[], [], [], 0⟩ : GlobalContext).csk = true)) :=
  c7_csk_monotone 10 ⟨[], [], [], 0⟩ (mkLevelContext levelC2 []) .ok
    ⟨[], kc, [.range kb kf], 1⟩
    ⟨⟨⟨[⟨kc, 30, .value⟩], 0, .ok⟩, [], true⟩,
     ⟨some ⟨[⟨kb, kf, 10⟩], 1, .ok⟩, kc, false⟩,
     ⟨kc, 30, .value⟩, .VALUE, true⟩
    rfl rfl rfl (by decide)

end SpdbGs
